import Mathlib

/-!
Verification model of the `vite-plugin-inline-js` plugin (`closeBundle` hook).

Strings are modelled as `List Char`.  The default
`scriptTagPattern = /<script\s+[^>]*src=["']([^"']+)["'][^>]*>\s*<\/script>/g`
is compiled by hand into backtracking continuation-passing matchers with
JavaScript's greedy, leftmost-match semantics.  The filesystem is an abstract
pair of total functions (`fs.existsSync` as `Str → Bool`, `fs.readFileSync`
as `Str → Str`); `path.resolve` is modelled for absolute base directories,
as used by the plugin (all its bases derive from `process.cwd()`-rooted
absolute paths).
-/

/-- Strings as lists of characters. -/
abbrev Str := List Char

/-- Coerce a Lean string literal into the `List Char` model. -/
def s2l (s : String) : Str := s.data

/-- Substring membership, as JavaScript's `String.prototype.includes` /
`String.prototype.indexOf`: index of the first occurrence of `pat`
starting at index `i`, if any. -/
def firstOccFrom (pat : Str) : Str → Nat → Option Nat
  | s, i =>
    if pat.isPrefixOf s then some i
    else
      match s with
      | [] => none
      | _ :: t => firstOccFrom pat t (i + 1)

/-- JavaScript `String.prototype.includes`. -/
def containsSeq (l pat : Str) : Bool := (firstOccFrom pat l 0).isSome

/-- JavaScript's `\s` character class (ECMAScript WhiteSpace ∪ LineTerminator). -/
def isJsWs (c : Char) : Bool :=
  c == ' ' || c == '\t' || c == '\n' || c == '\r' ||
  c == Char.ofNat 11 || c == Char.ofNat 12 ||
  c == Char.ofNat 0xa0 || c == Char.ofNat 0x1680 ||
  (0x2000 ≤ c.toNat && c.toNat ≤ 0x200a) ||
  c == Char.ofNat 0x2028 || c == Char.ofNat 0x2029 ||
  c == Char.ofNat 0x202f || c == Char.ofNat 0x205f ||
  c == Char.ofNat 0x3000 || c == Char.ofNat 0xfeff

/-- The regex character class `["']`. -/
def isQuote (c : Char) : Bool := c == '"' || c == Char.ofNat 39

/-- Literal regex atom: match `pat` exactly, continue with `k`. -/
def litK (pat : Str) (k : Str → Option α) (l : Str) : Option α :=
  if pat.isPrefixOf l then k (l.drop pat.length) else none

/-- Greedy `C*` over a character class `p`, with backtracking: the longest
consumption is tried first, as in JavaScript regexes. -/
def starK (p : Char → Bool) (k : Str → Option α) : Str → Option α
  | [] => k []
  | c :: cs =>
    if p c then
      match starK p k cs with
      | some r => some r
      | none => k (c :: cs)
    else k (c :: cs)

/-- Greedy `C+` over a character class `p`, with backtracking. -/
def plusK (p : Char → Bool) (k : Str → Option α) : Str → Option α
  | [] => none
  | c :: cs => if p c then starK p k cs else none

/-- Single-character class atom. -/
def charClassK (p : Char → Bool) (k : Str → Option α) : Str → Option α
  | [] => none
  | c :: cs => if p c then k cs else none

/-- Greedy capturing `C*` (accumulator holds the reversed capture so far). -/
def capStarK (p : Char → Bool) (k : Str → Str → Option α) (acc : Str) :
    Str → Option α
  | [] => k acc.reverse []
  | c :: cs =>
    if p c then
      match capStarK p k (c :: acc) cs with
      | some r => some r
      | none => k acc.reverse (c :: cs)
    else k acc.reverse (c :: cs)

/-- Greedy capturing `C+`. -/
def capPlusK (p : Char → Bool) (k : Str → Str → Option α) : Str → Option α
  | [] => none
  | c :: cs => if p c then capStarK p k [c] cs else none

/-- Attempt to match the default pattern
`<script\s+[^>]*src=["']([^"']+)["'][^>]*>\s*</script>` at the head of `l`.
Returns the length of the matched text and the captured source path. -/
def matchTagAt (l : Str) : Option (Nat × Str) :=
  let res : Option (Str × Str) :=
    litK (s2l "<script") (fun l1 =>
      plusK isJsWs (fun l2 =>
        starK (fun c => c != '>') (fun l3 =>
          litK (s2l "src=") (fun l4 =>
            charClassK isQuote (fun l5 =>
              capPlusK (fun c => !(isQuote c)) (fun src l6 =>
                charClassK isQuote (fun l7 =>
                  starK (fun c => c != '>') (fun l8 =>
                    litK (s2l ">") (fun l9 =>
                      starK isJsWs (fun l10 =>
                        litK (s2l "</script>") (fun l11 =>
                          some (src, l11)) l10) l9) l8) l7) l6) l5) l4) l3) l2) l1) l
  match res with
  | none => none
  | some (src, rest) => some (l.length - rest.length, src)

/-- Scan `l` (a suffix of the subject starting at index `pos`) for the first
position at which the pattern matches. -/
def execScan : Str → Nat → Option (Nat × Nat × Str)
  | l, pos =>
    match matchTagAt l with
    | some (len, src) => some (pos, len, src)
    | none =>
      match l with
      | [] => none
      | _ :: t => execScan t (pos + 1)

/-- Model of `scriptTagPattern.exec(s)` for the default global pattern, with the
regex's `lastIndex` equal to `i`: the earliest match starting at an index
`≥ i`, returned as `(start, length, captured source path)`. -/
def regexExec (s : Str) (i : Nat) : Option (Nat × Nat × Str) :=
  execScan (s.drop i) i

/-- The substring of `l` of length `len` starting at `start`. -/
def matchedSeg (l : Str) (start len : Nat) : Str := (l.drop start).take len

/-! ## Path model (`path.resolve`, `path.dirname` for POSIX absolute bases) -/

/-- Split a path on `/`. -/
def splitSlash (l : Str) : List Str :=
  l.foldr
    (fun c acc =>
      if c = '/' then [] :: acc
      else
        match acc with
        | [] => [[c]]
        | a :: as => (c :: a) :: as)
    [[]]

/-- Normalisation stack for an absolute path: drop empty and `.` segments,
let `..` pop (popping past the root is a no-op, as in Node). -/
def normStack : List Str → List Str → List Str
  | stk, [] => stk.reverse
  | stk, seg :: rest =>
    if seg = [] ∨ seg = ['.'] then normStack stk rest
    else if seg = ['.', '.'] then normStack stk.tail rest
    else normStack (seg :: stk) rest

/-- Normalise an absolute path (leading `/` is restored at the end). -/
def normAbs (l : Str) : Str :=
  '/' :: List.intercalate ['/'] (normStack [] (splitSlash l))

/-- Node `path.resolve(base, p)` for an absolute `base`, which is the only
way the plugin calls it (its bases are `path.dirname(htmlFile)`, the
`dist` directory and `process.cwd()`). -/
def pathResolve (base p : Str) : Str :=
  if p.head? = some '/' then normAbs p else normAbs (base ++ '/' :: p)

/-- Node `path.dirname`: everything before the last `/`; `.` when there is
no `/`, `/` when the last `/` is leading. -/
def dirname (p : Str) : Str :=
  match ((p.enum.filter (fun x => x.2 == '/')).map (fun x => x.1)).getLast? with
  | none => ['.']
  | some 0 => ['/']
  | some i => p.take i

/-! ## Eligibility and resolution (`closeBundle`, lines 100–143) -/

/-- Lines 100–106: a match is skipped when its source path starts with
`"http"`, or the full matched tag text does not contain `"inline"` and
`inlineAll` is off. -/
def skipMatch (fullMatch srcPath : Str) (inlineAll : Bool) : Bool :=
  (s2l "http").isPrefixOf srcPath ||
    (!(containsSeq fullMatch (s2l "inline")) && !inlineAll)

/-- Line 135, `srcPath.replace` with the anchored pattern: strip one leading `./`. -/
def stripDotSlash (l : Str) : Str :=
  if (s2l "./").isPrefixOf l then l.drop 2 else l

/-- The ordered candidate locations of lines 113–143 (equally, the attempted
paths enumerated by the warnings of lines 208–228): relative to the HTML
file's directory, to the `dist` directory, to the working directory, and to
each configured source directory with a leading `./` stripped. -/
def resolveCandidates (htmlDir distDir cwd : Str) (dirs : List Str)
    (src : Str) : List Str :=
  [pathResolve htmlDir src, pathResolve distDir src, pathResolve cwd src] ++
    dirs.map (fun d => pathResolve (pathResolve cwd d) (stripDotSlash src))

/-- The `for (const dir of sourceDirs)` loop of lines 130–143. -/
def resolveInDirs (fs : Str → Bool) (cwd : Str) (srcStripped : Str) :
    List Str → Option Str
  | [] => none
  | d :: ds =>
    let attemptPath := pathResolve (pathResolve cwd d) srcStripped
    if fs attemptPath then some attemptPath
    else resolveInDirs fs cwd srcStripped ds

/-- Lines 109–143: try the candidate locations in order and return the
first that exists (`fs.existsSync`), if any. -/
def resolveScript (fs : Str → Bool) (htmlDir distDir cwd : Str)
    (dirs : List Str) (src : Str) : Option Str :=
  let p1 := pathResolve htmlDir src
  if fs p1 then some p1
  else
    let p2 := pathResolve distDir src
    if fs p2 then some p2
    else
      let p3 := pathResolve cwd src
      if fs p3 then some p3
      else resolveInDirs fs cwd (stripDotSlash src) dirs

/-! ## JavaScript `String.prototype.replace(string, string)` -/

/-- ECMAScript `GetSubstitution` for a string search value (no capture
groups): `$$`, `$&`, `` $` `` and `$'` are special in the replacement. -/
def expandDollar (matched pre post : Str) : Str → Str
  | [] => []
  | c :: t =>
    if c = '$' then
      match t with
      | [] => ['$']
      | d :: t2 =>
        if d = '$' then '$' :: expandDollar matched pre post t2
        else if d = '&' then matched ++ expandDollar matched pre post t2
        else if d = Char.ofNat 96 then pre ++ expandDollar matched pre post t2
        else if d = Char.ofNat 39 then post ++ expandDollar matched pre post t2
        else '$' :: d :: expandDollar matched pre post t2
    else c :: expandDollar matched pre post t

/-- JavaScript `s.replace(pat, rep)` with string arguments: substitute the first
occurrence of `pat` only, expanding `$`-escapes in `rep`. -/
def replaceJS (s pat rep : Str) : Str :=
  match firstOccFrom pat s 0 with
  | none => s
  | some i =>
    let pre := s.take i
    let post := s.drop (i + pat.length)
    pre ++ expandDollar pat pre post rep ++ post

/-- Line 196: `` `<script>\n${jsContent}</script>` ``. -/
def inlineScriptTag (jsContent : Str) : Str :=
  s2l "<script>\n" ++ jsContent ++ s2l "</script>"

/-! ## Logging, minification and the per-document loop -/

/-- One event per `console.log` / `console.warn` site modelled inside
`closeBundle` (line numbers refer to the plugin source). -/
inductive LogEvent
  | infoTerserOk                               -- line 56
  | warnTerserMissing                          -- line 60
  | warnTerserContinue                         -- line 63
  | infoMinifying (src : Str)                  -- line 156
  | warnMinifyError (src msg : Str)            -- line 171
  | infoMinified (src : Str)                   -- line 182
  | warnErrorMinifying (src : Str)             -- line 187
  | inlined (src : Str)                        -- line 202
  | warnNotFound (src : Str)                   -- line 204
  | warnAttemptedHeader                        -- line 207
  | warnAttempted (idx : Nat) (p : Str)        -- lines 208-228
  | updatedFile (p : Str)                      -- line 241
  | noScripts (p : Str)                        -- line 248
  deriving DecidableEq

/-- Outcome of `terserModule.minify(jsContent, …)` (fixed options): either
the promise resolves to a result object `{error?, code}`, or it rejects /
throws. -/
inductive MinifyOutcome
  | result (error : Option Str) (code : Str)
  | throws (msg : Str)

/-- A loaded terser module, abstracted to its `minify` entry point. -/
def Minifier := Str → MinifyOutcome

/-- Lines 154–193: minify when enabled and a module is loaded; on a
reported error or a thrown exception, keep the (user-transformed)
unminified content. -/
def minifyStep (minify : Bool) (terserModule : Option Minifier)
    (src js : Str) : Str × List LogEvent :=
  match minify, terserModule with
  | true, some f =>
    match f js with
    | .result (some e) _ =>
      (js, [.infoMinifying src, .warnMinifyError src e])
    | .result none code =>
      (code, [.infoMinifying src, .infoMinified src])
    | .throws _ =>
      (js, [.infoMinifying src, .warnErrorMinifying src])
  | _, _ => (js, [])

/-- Plugin options (the tag pattern is fixed to the default; defaults in
the source are `minify = false`, `sourceDirs = ["src", "public"]`,
`inlineAll = false`, identity `transformContent`). -/
structure Config where
  minify : Bool
  transformContent : Str → Str → Str
  sourceDirs : List Str
  inlineAll : Bool

/-- Per-document mutable state of the `while` loop of lines 96–236:
the evolving document text, the regex's `lastIndex`, the `modified` flag,
and the log emitted so far. -/
structure DocState where
  html : Str
  lastIndex : Nat
  modified : Bool
  log : List LogEvent
  deriving DecidableEq

/-- The warnings of lines 203–229, enumerating every attempted path. -/
def notFoundWarnings (htmlDir distDir cwd : Str) (dirs : List Str)
    (src : Str) : List LogEvent :=
  LogEvent.warnNotFound src :: LogEvent.warnAttemptedHeader ::
    (resolveCandidates htmlDir distDir cwd dirs src).enum.map
      (fun p => LogEvent.warnAttempted (p.1 + 1) p.2)

/-- One iteration of the `while ((match = scriptTagPattern.exec(htmlContent)))`
loop (lines 96–236).  `none` means the loop terminates (no further match).
`exec` itself advances `lastIndex` to the end of the match; `continue`
leaves everything else untouched. -/
def loopStep (cfg : Config) (terserModule : Option Minifier)
    (fs : Str → Bool) (fsRead : Str → Str) (htmlDir distDir cwd : Str)
    (st : DocState) : Option DocState :=
  match regexExec st.html st.lastIndex with
  | none => none
  | some (start, len, srcPath) =>
    let fullMatch := matchedSeg st.html start len
    let li := start + len
    if skipMatch fullMatch srcPath cfg.inlineAll then
      some { st with lastIndex := li }
    else
      match resolveScript fs htmlDir distDir cwd cfg.sourceDirs srcPath with
      | none =>
        some { st with
                 lastIndex := li,
                 log := st.log ++
                   notFoundWarnings htmlDir distDir cwd cfg.sourceDirs srcPath }
      | some jsPath =>
        let js1 := cfg.transformContent (fsRead jsPath) srcPath
        let m := minifyStep cfg.minify terserModule srcPath js1
        some { html := replaceJS st.html fullMatch (inlineScriptTag m.1),
               lastIndex := li,
               modified := true,
               log := st.log ++ m.2 ++ [.inlined srcPath] }

/-- Run the loop to completion (the JavaScript loop can diverge when
inlined content itself contains an eligible resolvable tag text, so the
model is fuelled). -/
def processLoop (fuel : Nat) (cfg : Config) (terserModule : Option Minifier)
    (fs : Str → Bool) (fsRead : Str → Str) (htmlDir distDir cwd : Str)
    (st : DocState) : DocState :=
  match fuel with
  | 0 => st
  | fuel + 1 =>
    match loopStep cfg terserModule fs fsRead htmlDir distDir cwd st with
    | none => st
    | some st' =>
      processLoop fuel cfg terserModule fs fsRead htmlDir distDir cwd st'

/-- Result of processing one HTML file: `written` is whether the file was
written back (lines 238–254). -/
structure FileResult where
  path : Str
  finalHtml : Str
  written : Bool
  log : List LogEvent
  deriving DecidableEq

/-- Lines 79–254 for one HTML file: reset `lastIndex`, run the loop on the
file's content, then persist exactly when `modified` is set. -/
def processFile (fuel : Nat) (cfg : Config) (terserModule : Option Minifier)
    (fs : Str → Bool) (fsRead : Str → Str) (distDir cwd : Str)
    (p content : Str) : FileResult :=
  let st := processLoop fuel cfg terserModule fs fsRead (dirname p) distDir cwd
    { html := content, lastIndex := 0, modified := false, log := [] }
  { path := p,
    finalHtml := st.html,
    written := st.modified,
    log := st.log ++
      [if st.modified then LogEvent.updatedFile p else LogEvent.noScripts p] }

/-- Result of a whole `closeBundle` run. -/
structure RunResult where
  docs : List FileResult
  log : List LogEvent

/-- The `closeBundle` hook (lines 49–264): load terser at most once when
`minify` is on (`loadResult` is the outcome of the single
`await import("terser")`; `none` models a failed load, which logs the two
warnings of lines 60–64), then process each discovered HTML file.  The
directory scan is abstracted into the given `(path, content)` list. -/
def runCloseBundle (fuel : Nat) (cfg : Config) (loadResult : Option Minifier)
    (fs : Str → Bool) (fsRead : Str → Str) (distDir cwd : Str)
    (files : List (Str × Str)) : RunResult :=
  let terserModule := if cfg.minify then loadResult else none
  let head :=
    if cfg.minify then
      match loadResult with
      | some _ => [LogEvent.infoTerserOk]
      | none => [LogEvent.warnTerserMissing, LogEvent.warnTerserContinue]
    else []
  let docs := files.map
    (fun f => processFile fuel cfg terserModule fs fsRead distDir cwd f.1 f.2)
  { docs := docs, log := head ++ (docs.map (fun d => d.log)).flatten }

/-! ## Derived observations used by the claims -/

/-- Whether a log records at least one actual substitution (the
`console.log` of line 202 fires exactly when line 199's `replace` ran). -/
def hasInlined (log : List LogEvent) : Bool :=
  log.any fun e => match e with | .inlined _ => true | _ => false

/-- Number of substitutions recorded in a log. -/
def countInlined (log : List LogEvent) : Nat :=
  log.countP fun e => match e with | .inlined _ => true | _ => false

/-- Count of the terser-missing warning (line 60) in a log. -/
def countTerserWarn (log : List LogEvent) : Nat :=
  log.countP fun e => match e with | .warnTerserMissing => true | _ => false

/-- Decidable check that a document has no eligible reference: every match
the pattern can produce, from any scan position, is skipped by the
eligibility test.  (Positions beyond `html.length` never match.) -/
def noEligibleB (html : Str) (inlineAll : Bool) : Bool :=
  (List.range (html.length + 1)).all fun i =>
    match regexExec html i with
    | none => true
    | some (start, len, src) =>
      skipMatch (matchedSeg html start len) src inlineAll

/-- Modelled from the spec: the spec-side notion of a *protocol-prefixed*
(remote) source path — "begins with a URL scheme such as http://, https://,
ftp://, or a protocol-relative // prefix" — used only to compare the
specification's eligibility wording with the code's `startsWith("http")`
test. -/
def isProtocolPrefixed (l : Str) : Bool :=
  (s2l "//").isPrefixOf l ||
    (let scheme := l.takeWhile (fun c => c.isAlpha)
     !scheme.isEmpty && (s2l "://").isPrefixOf (l.drop scheme.length))

/-! ## Concrete fixtures used by witnesses and counterexamples -/

/-- Default plugin options (`minify=false`, identity transform,
`sourceDirs=["src","public"]`, `inlineAll=false`). -/
def cfgD : Config :=
  { minify := false, transformContent := fun c _ => c,
    sourceDirs := [s2l "src", s2l "public"], inlineAll := false }

/-- Default options with `inlineAll` turned on. -/
def cfgAll : Config := { cfgD with inlineAll := true }

def distD : Str := s2l "/dist"

def cwdD : Str := s2l "/w"

def pD : Str := s2l "/dist/index.html"

/-- A filesystem on which nothing exists. -/
def fsNone : Str → Bool := fun _ => false

def rdD : Str → Str := fun _ => s2l "x"

/-- An eligible local script tag (37 characters). -/
def tagA : Str := s2l "<script src=\"./a.js\" inline></script>"

/-- Filesystem containing exactly `/dist/a.js`. -/
def fsA : Str → Bool := fun p => p == s2l "/dist/a.js"

/-- Script content longer than `tagA`. -/
def rdLong : Str → Str := fun _ => s2l "console.log(12345678901);"

/-- One-character script content (inline replacement shorter than `tagA`). -/
def rdOne : Str → Str := fun _ => s2l "1"

def fsC2 : Str → Bool := fun p => p == s2l "/cdn.example.com/l.js"

/-- Filesystem where the same relative path `a.js` exists both under the
document's directory and under the configured source directory. -/
def fsC3 : Str → Bool :=
  fun p => p == s2l "/dist/sub/a.js" || p == s2l "/w/src/a.js"

/-! ## Helper lemmas -/

theorem expandDollar_no_dollar (matched pre post : Str) :
    ∀ rep : Str, '$' ∉ rep → expandDollar matched pre post rep = rep
  | [], _ => rfl
  | c :: t, h => by
    have hc : ¬c = '$' := by
      intro hceq
      subst hceq
      exact h (List.mem_cons_self _ _)
    have ht : '$' ∉ t := fun hm => h (List.mem_cons_of_mem _ hm)
    rw [expandDollar.eq_def]
    simp only [if_neg hc]
    rw [expandDollar_no_dollar matched pre post t ht]

theorem firstOccFrom_append_self (pat rest : Str) :
    firstOccFrom pat (pat ++ rest) 0 = some 0 := by
  have h : pat.isPrefixOf (pat ++ rest) = true :=
    List.isPrefixOf_iff_prefix.mpr (List.prefix_append pat rest)
  rw [firstOccFrom.eq_def]
  simp [h]

theorem replaceJS_of_firstOcc (s m rep : Str) (i : Nat)
    (hd : '$' ∉ rep) (ho : firstOccFrom m s 0 = some i) :
    replaceJS s m rep = s.take i ++ rep ++ s.drop (i + m.length) := by
  rw [replaceJS, ho]
  simp only []
  rw [expandDollar_no_dollar _ _ _ rep hd]

theorem replaceJS_append_self (pat rest rep : Str) (hd : '$' ∉ rep) :
    replaceJS (pat ++ rest) pat rep = rep ++ rest := by
  rw [replaceJS_of_firstOcc (pat ++ rest) pat rep 0 hd
    (firstOccFrom_append_self pat rest)]
  simp [List.drop_left]

theorem resolveInDirs_eq_find (fs : Str → Bool) (cwd srcStripped : Str) :
    ∀ ds : List Str,
      resolveInDirs fs cwd srcStripped ds =
        (ds.map (fun d => pathResolve (pathResolve cwd d) srcStripped)).find? fs
  | [] => rfl
  | d :: ds => by
    by_cases h : fs (pathResolve (pathResolve cwd d) srcStripped) <;>
      simp [resolveInDirs, List.find?, h,
        resolveInDirs_eq_find fs cwd srcStripped ds]

theorem loopStep_of_skip (cfg : Config) (tm : Option Minifier)
    (fs : Str → Bool) (fsRead : Str → Str) (htmlDir distDir cwd : Str)
    (st : DocState) (start len : Nat) (src : Str)
    (hexec : regexExec st.html st.lastIndex = some (start, len, src))
    (hskip : skipMatch (matchedSeg st.html start len) src cfg.inlineAll = true) :
    loopStep cfg tm fs fsRead htmlDir distDir cwd st =
      some { st with lastIndex := start + len } := by
  rw [loopStep.eq_def, hexec]
  simp [hskip]

/-! ## Claim C3 -/

/-- Claim C3: resolution tries the candidates in the exact order
(1) document directory, (2) output root, (3) working directory,
(4) each extra source directory in listed order with a leading `./`
stripped, and returns the first candidate existing on disk; in particular
a path existing document-relative wins over everything later. -/
theorem C3_resolution_order (fs : Str → Bool) (htmlDir distDir cwd : Str)
    (dirs : List Str) (src : Str) :
    (resolveScript fs htmlDir distDir cwd dirs src =
      (resolveCandidates htmlDir distDir cwd dirs src).find? fs) ∧
    (fs (pathResolve htmlDir src) = true →
      resolveScript fs htmlDir distDir cwd dirs src =
        some (pathResolve htmlDir src)) := by
  have key : resolveScript fs htmlDir distDir cwd dirs src =
      (resolveCandidates htmlDir distDir cwd dirs src).find? fs := by
    rw [resolveScript, resolveCandidates]
    by_cases h1 : fs (pathResolve htmlDir src) <;>
      by_cases h2 : fs (pathResolve distDir src) <;>
      by_cases h3 : fs (pathResolve cwd src) <;>
      simp [List.find?, h1, h2, h3, resolveInDirs_eq_find]
  refine ⟨key, fun h1 => ?_⟩
  rw [key, resolveCandidates]
  simp [List.find?, h1]

/-- Claim C3 witness: with `a.js` present both next to the document
(`/dist/sub/a.js`) and under the configured source directory
(`/w/src/a.js`), the document-relative file is the one resolved. -/
theorem C3_resolution_order_witness :
    fsC3 (pathResolve (s2l "/dist/sub") (s2l "./a.js")) = true ∧
    resolveScript fsC3 (s2l "/dist/sub") distD cwdD [s2l "src"]
        (s2l "./a.js") =
      some (pathResolve (s2l "/dist/sub") (s2l "./a.js")) :=
  ⟨by decide,
   (C3_resolution_order fsC3 (s2l "/dist/sub") distD cwdD [s2l "src"]
      (s2l "./a.js")).2 (by decide)⟩

/-! ## Claim C9 -/

/-- Claim C9: the inline-intent marker test is a plain substring check on
the full matched tag text, so any tag containing `"inline"` anywhere
(e.g. inside the `src` attribute value) is eligible whenever its source
path does not start with `"http"`, even with `inlineAll` off. -/
theorem C9_marker_is_substring_check (tag src : Str) (all : Bool)
    (hm : containsSeq tag (s2l "inline") = true)
    (hh : (s2l "http").isPrefixOf src = false) :
    skipMatch tag src all = false := by
  simp [skipMatch, hm, hh]

/-- Claim C9 witness: `src="inline-utils.js"` carries the marker only
inside the attribute value, yet is eligible with `inlineAll = false`. -/
theorem C9_marker_is_substring_check_witness :
    containsSeq (s2l "<script src=\"inline-utils.js\"></script>")
        (s2l "inline") = true ∧
    (s2l "http").isPrefixOf (s2l "inline-utils.js") = false ∧
    skipMatch (s2l "<script src=\"inline-utils.js\"></script>")
        (s2l "inline-utils.js") false = false :=
  ⟨by decide, by decide,
   C9_marker_is_substring_check _ _ _ (by decide) (by decide)⟩

/-! ## Claim C10 -/

/-- Claim C10: when the final script content contains no `$`, the
substituted text is exactly `"<script>\n" ++ content ++ "</script>"`,
spliced over the first occurrence of the matched tag text — the exact
shape holds because `String.prototype.replace` `$`-expansion is the
identity on `$`-free replacements. -/
theorem C10_inline_element_exact_shape (s m c : Str) (i : Nat)
    (hd : '$' ∉ c) (ho : firstOccFrom m s 0 = some i) :
    replaceJS s m (inlineScriptTag c) =
      s.take i ++ (s2l "<script>\n" ++ c ++ s2l "</script>") ++
        s.drop (i + m.length) := by
  have hd' : '$' ∉ inlineScriptTag c := by
    rw [inlineScriptTag]
    simp only [List.mem_append]
    rintro ((h | h) | h)
    · revert h; decide
    · exact hd h
    · revert h; decide
  rw [replaceJS_of_firstOcc s m (inlineScriptTag c) i hd' ho, inlineScriptTag]

/-- Claim C10 witness: the inline element substituted for `tagA` in a
document is exactly `<script>\n1</script>`. -/
theorem C10_inline_element_exact_shape_witness :
    ('$' ∉ s2l "1") ∧
    firstOccFrom tagA (s2l "<p></p>" ++ tagA) 0 = some 7 ∧
    replaceJS (s2l "<p></p>" ++ tagA) tagA (inlineScriptTag (s2l "1")) =
      (s2l "<p></p>" ++ tagA).take 7 ++
        (s2l "<script>\n" ++ s2l "1" ++ s2l "</script>") ++
        (s2l "<p></p>" ++ tagA).drop (7 + tagA.length) :=
  ⟨by decide, by decide,
   C10_inline_element_exact_shape _ _ _ 7 (by decide) (by decide)⟩

/-! ## Claim C1 -/

/-- Claim C1 counterexample: for the tag
`<script src="httpdocs/app.js" inline></script>` the source path is not
protocol-prefixed (no URL scheme, no `//`) and the tag carries the marker,
so the claim says the match is a candidate; but the code's
`srcPath.startsWith("http")` test skips it, refuting the claimed
"if and only if". -/
theorem C1_counterexample :
    ¬(skipMatch (s2l "<script src=\"httpdocs/app.js\" inline></script>")
          (s2l "httpdocs/app.js") false = false ↔
        (isProtocolPrefixed (s2l "httpdocs/app.js") = false ∧
          (containsSeq (s2l "<script src=\"httpdocs/app.js\" inline></script>")
              (s2l "inline") = true ∨
            false = true))) := by
  decide

/-- Claim C1 (amended): a match is a candidate for inlining if and only if
its extracted source path does not start with the literal `"http"` and
either the full matched tag text contains `"inline"` or `inlineAll` is
true; a match failing this is skipped — the loop step leaves the document
text, the `modified` flag and the log untouched and only advances the
scan position past the match. -/
theorem C1_candidate_iff_amended :
    (∀ (tag src : Str) (all : Bool),
      skipMatch tag src all = false ↔
        ((s2l "http").isPrefixOf src = false ∧
          (containsSeq tag (s2l "inline") = true ∨ all = true))) ∧
    (∀ (cfg : Config) (tm : Option Minifier) (fs : Str → Bool)
      (fsRead : Str → Str) (htmlDir distDir cwd : Str) (st : DocState)
      (start len : Nat) (src : Str),
      regexExec st.html st.lastIndex = some (start, len, src) →
      skipMatch (matchedSeg st.html start len) src cfg.inlineAll = true →
      loopStep cfg tm fs fsRead htmlDir distDir cwd st =
        some { st with lastIndex := start + len }) := by
  constructor
  · intro tag src all
    cases h1 : (s2l "http").isPrefixOf src <;>
      cases h2 : containsSeq tag (s2l "inline") <;>
      cases all <;> simp [skipMatch, h1, h2]
  · intro cfg tm fs fsRead htmlDir distDir cwd st start len src hexec hskip
    exact loopStep_of_skip cfg tm fs fsRead htmlDir distDir cwd st
      start len src hexec hskip

/-- Claim C1 witness: the amended iff at a concrete marked local tag, and
the skip behaviour of the loop step at a concrete external (`http://`)
reference: only `lastIndex` changes. -/
theorem C1_candidate_iff_amended_witness :
    (skipMatch tagA (s2l "./a.js") false = false ↔
      ((s2l "http").isPrefixOf (s2l "./a.js") = false ∧
        (containsSeq tagA (s2l "inline") = true ∨ false = true))) ∧
    loopStep cfgD none fsNone rdD distD distD cwdD
        { html := s2l "<script src=\"http://x.com/a.js\"></script>",
          lastIndex := 0, modified := false, log := [] } =
      some { html := s2l "<script src=\"http://x.com/a.js\"></script>",
             lastIndex := 0 + 41, modified := false, log := [] } :=
  ⟨C1_candidate_iff_amended.1 tagA (s2l "./a.js") false,
   C1_candidate_iff_amended.2 cfgD none fsNone rdD distD distD cwdD
     { html := s2l "<script src=\"http://x.com/a.js\"></script>",
       lastIndex := 0, modified := false, log := [] }
     0 41 (s2l "http://x.com/a.js") (by decide) (by decide)⟩

/-! ## Claim C2 -/

/-- Claim C2 counterexample: the protocol-relative source path
`//cdn.example.com/l.js` is protocol-prefixed in the claim's sense, yet
with a filesystem on which the document-relative resolution target exists
the reference *is* inlined and the tag *is* rewritten (the code only
guards against paths starting with the literal `http`). -/
theorem C2_counterexample :
    isProtocolPrefixed (s2l "//cdn.example.com/l.js") = true ∧
    (processFile 5 cfgD none fsC2 rdD distD cwdD pD
        (s2l "<script src=\"//cdn.example.com/l.js\" inline></script>")).written
      = true ∧
    (processFile 5 cfgD none fsC2 rdD distD cwdD pD
        (s2l "<script src=\"//cdn.example.com/l.js\" inline></script>")).finalHtml
      = s2l "<script>\nx</script>" := by
  decide

/-- Claim C2 (amended): a reference whose source path starts with the
literal `"http"` (so `http://` and `https://` URLs, but not other
protocol prefixes) is never inlined and never altered: for every
configuration, the loop step only advances the scan position. -/
theorem C2_http_never_inlined (cfg : Config) (tm : Option Minifier)
    (fs : Str → Bool) (fsRead : Str → Str) (htmlDir distDir cwd : Str)
    (st : DocState) (start len : Nat) (src : Str)
    (hexec : regexExec st.html st.lastIndex = some (start, len, src))
    (hsrc : (s2l "http").isPrefixOf src = true) :
    loopStep cfg tm fs fsRead htmlDir distDir cwd st =
      some { st with lastIndex := start + len } := by
  exact loopStep_of_skip cfg tm fs fsRead htmlDir distDir cwd st start len src
    hexec (by simp [skipMatch, hsrc])

/-- Claim C2 witness: an `https://` reference is left untouched even with
`inlineAll = true` and a filesystem on which every path exists. -/
theorem C2_http_never_inlined_witness :
    loopStep cfgAll none (fun _ => true) rdD distD distD cwdD
        { html := s2l "<script src=\"https://x.com/a.js\"></script>",
          lastIndex := 0, modified := false, log := [] } =
      some { html := s2l "<script src=\"https://x.com/a.js\"></script>",
             lastIndex := 0 + 42, modified := false, log := [] } :=
  C2_http_never_inlined cfgAll none (fun _ => true) rdD distD distD cwdD
    { html := s2l "<script src=\"https://x.com/a.js\"></script>",
      lastIndex := 0, modified := false, log := [] }
    0 42 (s2l "https://x.com/a.js") (by decide) (by decide)

/-! ## Claim C4 -/

/-- Extract the path carried by an attempted-path warning line. -/
def attemptedPath? : LogEvent → Option Str
  | .warnAttempted _ p => some p
  | _ => none

/-- Claim C4: an eligible reference that resolves nowhere is handled
non-fatally: the loop step keeps the document text and the `modified`
flag unchanged, advances past the match (processing continues with the
remaining references), and appends the warning block — whose attempted
paths are exactly the ordered candidate list (document-relative, output
root, working directory, then each configured source directory). -/
theorem C4_unresolvable_nonfatal (cfg : Config) (tm : Option Minifier)
    (fs : Str → Bool) (fsRead : Str → Str) (htmlDir distDir cwd : Str)
    (st : DocState) (start len : Nat) (src : Str)
    (hexec : regexExec st.html st.lastIndex = some (start, len, src))
    (hskip : skipMatch (matchedSeg st.html start len) src cfg.inlineAll = false)
    (hres : resolveScript fs htmlDir distDir cwd cfg.sourceDirs src = none) :
    loopStep cfg tm fs fsRead htmlDir distDir cwd st =
      some { st with
               lastIndex := start + len,
               log := st.log ++
                 notFoundWarnings htmlDir distDir cwd cfg.sourceDirs src } ∧
    (notFoundWarnings htmlDir distDir cwd cfg.sourceDirs src).filterMap
        attemptedPath? =
      resolveCandidates htmlDir distDir cwd cfg.sourceDirs src := by
  constructor
  · rw [loopStep.eq_def, hexec]
    simp [hskip, hres]
  · rw [notFoundWarnings]
    simp [attemptedPath?, List.filterMap_cons, List.filterMap_map,
      Function.comp]
    have : ∀ l : List Str,
        l.enum.filterMap
          (fun p => attemptedPath? (LogEvent.warnAttempted (p.1 + 1) p.2)) =
        l := by
      intro l
      simp only [attemptedPath?]
      have h2 : (fun p : Nat × Str => some p.2) = some ∘ Prod.snd := rfl
      rw [h2, List.filterMap_eq_map, List.enum_map_snd]
    exact this _

/-- Claim C4 witness: a marked reference to `./missing.js` on an empty
filesystem is left unmodified, the scan advances, and the warning block
is appended. -/
theorem C4_unresolvable_nonfatal_witness :
    loopStep cfgD none fsNone rdD distD distD cwdD
        { html := s2l "<script src=\"./missing.js\" inline></script>",
          lastIndex := 0, modified := false, log := [] } =
      some { html := s2l "<script src=\"./missing.js\" inline></script>",
             lastIndex := 0 + 43, modified := false,
             log := [] ++
               notFoundWarnings distD distD cwdD cfgD.sourceDirs
                 (s2l "./missing.js") } :=
  (C4_unresolvable_nonfatal cfgD none fsNone rdD distD distD cwdD
    { html := s2l "<script src=\"./missing.js\" inline></script>",
      lastIndex := 0, modified := false, log := [] }
    0 43 (s2l "./missing.js") (by decide) (by decide) (by decide)).1

/-! ## Log bookkeeping lemmas -/

theorem hasInlined_append (a b : List LogEvent) :
    hasInlined (a ++ b) = (hasInlined a || hasInlined b) := by
  simp [hasInlined, List.any_append]

theorem countTerserWarn_append (a b : List LogEvent) :
    countTerserWarn (a ++ b) = countTerserWarn a + countTerserWarn b := by
  simp [countTerserWarn, List.countP_append]

theorem warnAttempted_log (l : List (Nat × Str)) :
    hasInlined (l.map (fun p => LogEvent.warnAttempted (p.1 + 1) p.2)) =
      false ∧
    countTerserWarn (l.map (fun p => LogEvent.warnAttempted (p.1 + 1) p.2)) =
      0 := by
  induction l with
  | nil => exact ⟨rfl, rfl⟩
  | cons a t ih =>
    refine ⟨?_, ?_⟩
    · rw [List.map_cons, hasInlined, List.any_cons]
      rw [hasInlined] at ih
      simp [ih.1]
    · rw [List.map_cons, countTerserWarn, List.countP_cons]
      rw [countTerserWarn] at ih
      simp [ih.2]

theorem notFoundWarnings_log (htmlDir distDir cwd : Str) (dirs : List Str)
    (src : Str) :
    hasInlined (notFoundWarnings htmlDir distDir cwd dirs src) = false ∧
    countTerserWarn (notFoundWarnings htmlDir distDir cwd dirs src) = 0 := by
  rw [notFoundWarnings]
  refine ⟨?_, ?_⟩
  · rw [hasInlined, List.any_cons, List.any_cons]
    have h := (warnAttempted_log
      (resolveCandidates htmlDir distDir cwd dirs src).enum).1
    rw [hasInlined] at h
    simp [h]
  · rw [countTerserWarn, List.countP_cons, List.countP_cons]
    have h := (warnAttempted_log
      (resolveCandidates htmlDir distDir cwd dirs src).enum).2
    rw [countTerserWarn] at h
    simp [h]

theorem minifyStep_log (b : Bool) (tm : Option Minifier) (src js : Str) :
    hasInlined (minifyStep b tm src js).2 = false ∧
    countTerserWarn (minifyStep b tm src js).2 = 0 := by
  cases b with
  | false => simp [minifyStep, hasInlined, countTerserWarn]
  | true =>
    cases tm with
    | none => simp [minifyStep, hasInlined, countTerserWarn]
    | some f =>
      cases hf : f js with
      | result e code =>
        cases e <;> simp [minifyStep, hf, hasInlined, countTerserWarn]
      | throws m => simp [minifyStep, hf, hasInlined, countTerserWarn]

theorem minifyStep_none (b : Bool) (src js : Str) :
    minifyStep b none src js = (js, []) := by
  cases b <;> rfl

/-! ## Loop step case equations -/

theorem loopStep_of_notFound (cfg : Config) (tm : Option Minifier)
    (fs : Str → Bool) (fsRead : Str → Str) (htmlDir distDir cwd : Str)
    (st : DocState) (start len : Nat) (src : Str)
    (hexec : regexExec st.html st.lastIndex = some (start, len, src))
    (hskip : skipMatch (matchedSeg st.html start len) src cfg.inlineAll = false)
    (hres : resolveScript fs htmlDir distDir cwd cfg.sourceDirs src = none) :
    loopStep cfg tm fs fsRead htmlDir distDir cwd st =
      some { st with
               lastIndex := start + len,
               log := st.log ++
                 notFoundWarnings htmlDir distDir cwd cfg.sourceDirs src } := by
  rw [loopStep.eq_def, hexec]
  simp [hskip, hres]

theorem loopStep_of_inline (cfg : Config) (tm : Option Minifier)
    (fs : Str → Bool) (fsRead : Str → Str) (htmlDir distDir cwd : Str)
    (st : DocState) (start len : Nat) (src jsPath : Str)
    (hexec : regexExec st.html st.lastIndex = some (start, len, src))
    (hskip : skipMatch (matchedSeg st.html start len) src cfg.inlineAll = false)
    (hres : resolveScript fs htmlDir distDir cwd cfg.sourceDirs src =
      some jsPath) :
    loopStep cfg tm fs fsRead htmlDir distDir cwd st =
      some { html := replaceJS st.html (matchedSeg st.html start len)
                 (inlineScriptTag
                   (minifyStep cfg.minify tm src
                     (cfg.transformContent (fsRead jsPath) src)).1),
             lastIndex := start + len,
             modified := true,
             log := st.log ++
               (minifyStep cfg.minify tm src
                 (cfg.transformContent (fsRead jsPath) src)).2 ++
               [LogEvent.inlined src] } := by
  rw [loopStep.eq_def, hexec]
  simp [hskip, hres]

theorem loopStep_log (cfg : Config) (tm : Option Minifier) (fs : Str → Bool)
    (fsRead : Str → Str) (htmlDir distDir cwd : Str) (st st' : DocState)
    (h : loopStep cfg tm fs fsRead htmlDir distDir cwd st = some st') :
    ∃ tail, st'.log = st.log ++ tail ∧ countTerserWarn tail = 0 ∧
      st'.modified = (st.modified || hasInlined tail) := by
  cases hexec : regexExec st.html st.lastIndex with
  | none =>
    rw [loopStep.eq_def, hexec] at h
    cases h
  | some t =>
    obtain ⟨start, len, src⟩ := t
    cases hskip : skipMatch (matchedSeg st.html start len) src cfg.inlineAll with
    | true =>
      rw [loopStep_of_skip cfg tm fs fsRead htmlDir distDir cwd st
        start len src hexec hskip] at h
      have h' := Option.some.inj h
      subst h'
      exact ⟨[], by simp, rfl, by simp [hasInlined]⟩
    | false =>
      cases hres : resolveScript fs htmlDir distDir cwd cfg.sourceDirs src with
      | none =>
        rw [loopStep_of_notFound cfg tm fs fsRead htmlDir distDir cwd st
          start len src hexec hskip hres] at h
        have h' := Option.some.inj h
        subst h'
        refine ⟨notFoundWarnings htmlDir distDir cwd cfg.sourceDirs src,
          rfl, (notFoundWarnings_log htmlDir distDir cwd cfg.sourceDirs src).2,
          ?_⟩
        rw [(notFoundWarnings_log htmlDir distDir cwd cfg.sourceDirs src).1]
        simp
      | some jsPath =>
        rw [loopStep_of_inline cfg tm fs fsRead htmlDir distDir cwd st
          start len src jsPath hexec hskip hres] at h
        have h' := Option.some.inj h
        subst h'
        refine ⟨(minifyStep cfg.minify tm src
            (cfg.transformContent (fsRead jsPath) src)).2 ++
            [LogEvent.inlined src], by simp, ?_, ?_⟩
        · rw [countTerserWarn_append,
            (minifyStep_log cfg.minify tm src _).2]
          rfl
        · rw [hasInlined_append,
            (minifyStep_log cfg.minify tm src _).1]
          simp [hasInlined]

theorem processLoop_log (cfg : Config) (tm : Option Minifier)
    (fs : Str → Bool) (fsRead : Str → Str) (htmlDir distDir cwd : Str) :
    ∀ (fuel : Nat) (st : DocState),
      ∃ tail,
        (processLoop fuel cfg tm fs fsRead htmlDir distDir cwd st).log =
          st.log ++ tail ∧
        countTerserWarn tail = 0 ∧
        (processLoop fuel cfg tm fs fsRead htmlDir distDir cwd st).modified =
          (st.modified || hasInlined tail) := by
  intro fuel
  induction fuel with
  | zero =>
    intro st
    exact ⟨[], by simp [processLoop], by rfl, by simp [processLoop, hasInlined]⟩
  | succ n ih =>
    intro st
    cases hstep : loopStep cfg tm fs fsRead htmlDir distDir cwd st with
    | none =>
      refine ⟨[], ?_, by rfl, ?_⟩ <;> simp [processLoop, hstep, hasInlined]
    | some st' =>
      obtain ⟨tail1, hl1, hc1, hm1⟩ :=
        loopStep_log cfg tm fs fsRead htmlDir distDir cwd st st' hstep
      obtain ⟨tail2, hl2, hc2, hm2⟩ := ih st'
      refine ⟨tail1 ++ tail2, ?_, ?_, ?_⟩
      · rw [processLoop]
        rw [hstep]
        rw [hl2, hl1, List.append_assoc]
      · rw [countTerserWarn_append, hc1, hc2]
      · rw [processLoop]
        rw [hstep]
        rw [hm2, hm1, hasInlined_append, Bool.or_assoc]

theorem regexExec_none_of_le (html : Str) (i : Nat)
    (h : html.length ≤ i) : regexExec html i = none := by
  rw [regexExec, List.drop_eq_nil_of_le h]
  rw [execScan]
  rfl

theorem noEligible_spec (html : Str) (all : Bool)
    (h : noEligibleB html all = true) :
    ∀ i start len src, regexExec html i = some (start, len, src) →
      skipMatch (matchedSeg html start len) src all = true := by
  intro i start len src he
  by_cases hi : i ≤ html.length
  · have hm := List.all_eq_true.mp h i (List.mem_range.mpr (by omega))
    rw [he] at hm
    exact hm
  · rw [regexExec_none_of_le html i (by omega)] at he
    cases he

theorem processLoop_skipped (cfg : Config) (tm : Option Minifier)
    (fs : Str → Bool) (fsRead : Str → Str) (htmlDir distDir cwd : Str)
    (content : Str)
    (h : ∀ i start len src, regexExec content i = some (start, len, src) →
      skipMatch (matchedSeg content start len) src cfg.inlineAll = true) :
    ∀ (fuel : Nat) (st : DocState), st.html = content →
      (processLoop fuel cfg tm fs fsRead htmlDir distDir cwd st).html =
        content ∧
      (processLoop fuel cfg tm fs fsRead htmlDir distDir cwd st).modified =
        st.modified := by
  intro fuel
  induction fuel with
  | zero =>
    intro st hst
    exact ⟨hst, rfl⟩
  | succ n ih =>
    intro st hst
    cases hexec : regexExec st.html st.lastIndex with
    | none =>
      rw [processLoop, loopStep.eq_def, hexec]
      exact ⟨hst, rfl⟩
    | some t =>
      obtain ⟨start, len, src⟩ := t
      have hskip : skipMatch (matchedSeg st.html start len) src
          cfg.inlineAll = true := by
        rw [hst]
        rw [hst] at hexec
        exact h st.lastIndex start len src hexec
      rw [processLoop, loopStep_of_skip cfg tm fs fsRead htmlDir distDir cwd
        st start len src hexec hskip]
      exact ih { st with lastIndex := start + len } hst

/-! ## Claim C5 -/

/-- Claim C5: a document is written back if and only if at least one tag
substitution was actually applied to its text (the `modified` flag is set
exactly when a substitution is logged); and a document with zero eligible
script references is not written and keeps its text unchanged. -/
theorem C5_persisted_iff_substituted (fuel : Nat) (cfg : Config)
    (tm : Option Minifier) (fs : Str → Bool) (fsRead : Str → Str)
    (distDir cwd p content : Str) :
    ((processFile fuel cfg tm fs fsRead distDir cwd p content).written =
        true ↔
      hasInlined
        (processFile fuel cfg tm fs fsRead distDir cwd p content).log =
        true) ∧
    (noEligibleB content cfg.inlineAll = true →
      (processFile fuel cfg tm fs fsRead distDir cwd p content).written =
        false ∧
      (processFile fuel cfg tm fs fsRead distDir cwd p content).finalHtml =
        content) := by
  obtain ⟨tail, hl, hc, hm⟩ := processLoop_log cfg tm fs fsRead (dirname p)
    distDir cwd fuel
    { html := content, lastIndex := 0, modified := false, log := [] }
  simp only [List.nil_append, Bool.false_or] at hl hm
  constructor
  · simp only [processFile]
    rw [hl, hm, hasInlined_append]
    cases hb : hasInlined tail <;> simp [hasInlined, hb]
  · intro hne
    have hsk := noEligible_spec content cfg.inlineAll hne
    have hres := processLoop_skipped cfg tm fs fsRead (dirname p) distDir cwd
      content hsk fuel
      { html := content, lastIndex := 0, modified := false, log := [] } rfl
    simp only [processFile]
    exact ⟨hres.2, hres.1⟩

/-- Claim C5 witness: a document whose only script reference is external
(`http://`) has zero eligible references; it is not written and its text
is unchanged. -/
theorem C5_persisted_iff_substituted_witness :
    noEligibleB (s2l "<script src=\"http://x.com/a.js\"></script>")
        cfgD.inlineAll = true ∧
    ((processFile 3 cfgD none fsNone rdD distD cwdD pD
        (s2l "<script src=\"http://x.com/a.js\"></script>")).written =
        false ∧
      (processFile 3 cfgD none fsNone rdD distD cwdD pD
        (s2l "<script src=\"http://x.com/a.js\"></script>")).finalHtml =
        s2l "<script src=\"http://x.com/a.js\"></script>") :=
  ⟨by decide,
   (C5_persisted_iff_substituted 3 cfgD none fsNone rdD distD cwdD pD
     (s2l "<script src=\"http://x.com/a.js\"></script>")).2 (by decide)⟩

/-! ## Claim C6 -/

theorem loopStep_no_minifier (c1 c2 : Config)
    (ht : c1.transformContent = c2.transformContent)
    (hs : c1.sourceDirs = c2.sourceDirs)
    (hi : c1.inlineAll = c2.inlineAll)
    (fs : Str → Bool) (fsRead : Str → Str) (htmlDir distDir cwd : Str)
    (st : DocState) :
    loopStep c1 none fs fsRead htmlDir distDir cwd st =
      loopStep c2 none fs fsRead htmlDir distDir cwd st := by
  rw [loopStep.eq_def, loopStep.eq_def, ht, hs, hi]
  simp only [minifyStep_none]

theorem processLoop_no_minifier (c1 c2 : Config)
    (ht : c1.transformContent = c2.transformContent)
    (hs : c1.sourceDirs = c2.sourceDirs)
    (hi : c1.inlineAll = c2.inlineAll)
    (fs : Str → Bool) (fsRead : Str → Str) (htmlDir distDir cwd : Str) :
    ∀ (fuel : Nat) (st : DocState),
      processLoop fuel c1 none fs fsRead htmlDir distDir cwd st =
        processLoop fuel c2 none fs fsRead htmlDir distDir cwd st := by
  intro fuel
  induction fuel with
  | zero => intro st; rfl
  | succ n ih =>
    intro st
    rw [processLoop, processLoop,
      loopStep_no_minifier c1 c2 ht hs hi fs fsRead htmlDir distDir cwd st]
    cases loopStep c2 none fs fsRead htmlDir distDir cwd st with
    | none => rfl
    | some st' => exact ih st'

theorem processFile_no_minifier (c1 c2 : Config)
    (ht : c1.transformContent = c2.transformContent)
    (hs : c1.sourceDirs = c2.sourceDirs)
    (hi : c1.inlineAll = c2.inlineAll)
    (fuel : Nat) (fs : Str → Bool) (fsRead : Str → Str) (distDir cwd : Str)
    (p content : Str) :
    processFile fuel c1 none fs fsRead distDir cwd p content =
      processFile fuel c2 none fs fsRead distDir cwd p content := by
  rw [processFile, processFile,
    processLoop_no_minifier c1 c2 ht hs hi fs fsRead (dirname p) distDir cwd
      fuel]

theorem processFile_no_terser_warn (fuel : Nat) (cfg : Config)
    (tm : Option Minifier) (fs : Str → Bool) (fsRead : Str → Str)
    (distDir cwd p content : Str) :
    countTerserWarn
      (processFile fuel cfg tm fs fsRead distDir cwd p content).log = 0 := by
  obtain ⟨tail, hl, hc, hm⟩ := processLoop_log cfg tm fs fsRead (dirname p)
    distDir cwd fuel
    { html := content, lastIndex := 0, modified := false, log := [] }
  simp only [List.nil_append] at hl
  simp only [processFile]
  rw [hl, countTerserWarn_append, hc]
  cases (processLoop fuel cfg tm fs fsRead (dirname p) distDir cwd
    { html := content, lastIndex := 0, modified := false,
      log := [] }).modified <;> rfl

theorem flatten_no_terser_warn (fuel : Nat) (cfg : Config)
    (tm : Option Minifier) (fs : Str → Bool) (fsRead : Str → Str)
    (distDir cwd : Str) :
    ∀ files : List (Str × Str),
      countTerserWarn
        ((files.map
          (fun f =>
            (processFile fuel cfg tm fs fsRead distDir cwd f.1 f.2).log)).flatten)
        = 0
  | [] => rfl
  | f :: fl => by
    rw [List.map_cons, List.flatten_cons, countTerserWarn_append,
      processFile_no_terser_warn,
      flatten_no_terser_warn fuel cfg tm fs fsRead distDir cwd fl]

/-- Claim C6: when minification is requested but the single per-run module
load fails, the terser-missing warning appears exactly once in the whole
run's log (never once per script), and every document is processed exactly
as in a run with minification disabled — inlining of every resolvable
script proceeds with the user-transformed, unminified content. -/
theorem C6_minifier_load_failure (fuel : Nat) (cfg : Config)
    (fs : Str → Bool) (fsRead : Str → Str) (distDir cwd : Str)
    (files : List (Str × Str)) :
    (runCloseBundle fuel { cfg with minify := true } none fs fsRead distDir
        cwd files).docs =
      (runCloseBundle fuel { cfg with minify := false } none fs fsRead distDir
        cwd files).docs ∧
    countTerserWarn
      (runCloseBundle fuel { cfg with minify := true } none fs fsRead distDir
        cwd files).log = 1 := by
  constructor
  · simp only [runCloseBundle]
    apply List.map_congr_left
    intro f hf
    exact processFile_no_minifier { cfg with minify := true }
      { cfg with minify := false } rfl rfl rfl fuel fs fsRead distDir cwd
      f.1 f.2
  · simp only [runCloseBundle, List.map_map, Function.comp_def, if_true]
    rw [countTerserWarn_append]
    rw [flatten_no_terser_warn fuel { cfg with minify := true } none
      fs fsRead distDir cwd files]
    rfl

/-! ## Claim C7 -/

/-- Claim C7 counterexample: a document consisting of two syntactically
identical eligible tags referencing the same resolvable source.  With
inlined content longer than the tag, the single pass substitutes BOTH
occurrences (the scan continues over the rewritten text and matches the
second tag again), refuting "exactly one of the two occurrences is
substituted … leaving the other occurrence unchanged". -/
theorem C7_counterexample :
    (processFile 5 cfgD none fsA rdLong distD cwdD pD
        (tagA ++ tagA)).finalHtml =
      inlineScriptTag (s2l "console.log(12345678901);") ++
        inlineScriptTag (s2l "console.log(12345678901);") ∧
    countInlined
      (processFile 5 cfgD none fsA rdLong distD cwdD pD
        (tagA ++ tagA)).log = 2 := by
  decide

/-- Claim C7 (amended): each `replace` call substitutes only the first
occurrence of the exact original-tag text, but the pass then continues
scanning the rewritten document, so the second identical occurrence may be
substituted as well in the same pass; exactly one occurrence survives only
when the rewritten second tag starts before the scan's continuation
offset — e.g. with a one-character script, one pass over two adjacent
identical tags substitutes exactly the first occurrence. -/
theorem C7_first_occurrence_per_call :
    (∀ pat rest rep : Str, '$' ∉ rep →
      replaceJS (pat ++ rest) pat rep = rep ++ rest) ∧
    ((processFile 5 cfgD none fsA rdOne distD cwdD pD
        (tagA ++ tagA)).finalHtml = inlineScriptTag (s2l "1") ++ tagA ∧
      countInlined
        (processFile 5 cfgD none fsA rdOne distD cwdD pD
          (tagA ++ tagA)).log = 1) := by
  constructor
  · intro pat rest rep hd
    exact replaceJS_append_self pat rest rep hd
  · constructor <;> decide

/-- Claim C7 witness: the first-occurrence property of a single `replace`
call at concrete strings. -/
theorem C7_first_occurrence_per_call_witness :
    ('$' ∉ s2l "XY") ∧
    replaceJS (s2l "ab" ++ s2l "cd") (s2l "ab") (s2l "XY") =
      s2l "XY" ++ s2l "cd" :=
  ⟨by decide,
   C7_first_occurrence_per_call.1 (s2l "ab") (s2l "cd") (s2l "XY")
     (by decide)⟩

/-! ## Claim C8 -/

/-- Claim C8 counterexample: when the first pass leaves the second of two
identical eligible tags unsubstituted (short inlined content), running the
stage again on the produced text substitutes it — the second run changes
the document, refuting idempotence as stated. -/
theorem C8_counterexample :
    countInlined
      (processFile 5 cfgD none fsA rdOne distD cwdD pD
        (processFile 5 cfgD none fsA rdOne distD cwdD pD
          (tagA ++ tagA)).finalHtml).log = 1 ∧
    (processFile 5 cfgD none fsA rdOne distD cwdD pD
        (processFile 5 cfgD none fsA rdOne distD cwdD pD
          (tagA ++ tagA)).finalHtml).finalHtml ≠
      (processFile 5 cfgD none fsA rdOne distD cwdD pD
        (tagA ++ tagA)).finalHtml := by
  decide

/-- Claim C8 (amended): a substituted inline script element lacks a `src`
attribute and therefore never matches the source-reference tag pattern at
its own position, so re-running the stage is idempotent once every
eligible occurrence has been substituted (e.g. on the output in which both
duplicate tags were replaced, a second run substitutes nothing and leaves
the text unchanged); but if the first pass left an identical eligible
duplicate unsubstituted, a second run substitutes it. -/
theorem C8_idempotent_on_fully_substituted :
    (∀ content rest : Str,
      matchTagAt (inlineScriptTag content ++ rest) = none) ∧
    ((processFile 5 cfgD none fsA rdLong distD cwdD pD
        (inlineScriptTag (s2l "console.log(12345678901);") ++
          inlineScriptTag (s2l "console.log(12345678901);"))).written =
        false ∧
      (processFile 5 cfgD none fsA rdLong distD cwdD pD
        (inlineScriptTag (s2l "console.log(12345678901);") ++
          inlineScriptTag (s2l "console.log(12345678901);"))).finalHtml =
        inlineScriptTag (s2l "console.log(12345678901);") ++
          inlineScriptTag (s2l "console.log(12345678901);")) := by
  constructor
  · intro content rest
    rfl
  · constructor <;> decide
